import Mathlib

/-!
Shallow embedding of `bybit_rebalance_perp.py`: the ledger PnL tracker,
the ATR/EMA indicator functions, quantity rounding and the per-tick
rebalance decision `compute_and_maybe_rebalance`.  Exchange I/O (price,
candles, position, margin balance, ledger page) is passed in as explicit
per-tick inputs; float arithmetic is modelled over ℚ.
-/

namespace BybitRebalance

/-- Lower-casing of a string, character by character
(models Python's `str.lower()` on the ASCII ledger type tags). -/
def strLower (s : String) : String :=
  ⟨s.data.map Char.toLower⟩

/-- A ledger entry as consumed by `LedgerPnLTracker.ingest_ledger_entry`:
`id` (dedup key), `type` (free-text category) and signed `amount`. -/
structure LedgerEntry where
  id : Nat
  etype : String
  amount : ℚ
deriving DecidableEq

/-- The accumulator state of `LedgerPnLTracker`. -/
@[ext] structure LedgerPnLTracker where
  seen_ids : Finset Nat
  realized : ℚ
  funding_paid : ℚ
  fees_paid : ℚ
deriving DecidableEq

/-- `LedgerPnLTracker.__init__`: empty dedup set, zero totals. -/
def LedgerPnLTracker.init : LedgerPnLTracker := ⟨∅, 0, 0, 0⟩

/-- The classification part of `ingest_ledger_entry` (lines 86-94):
dispatch on the lower-cased entry type and update one total. -/
def applyEntryType (s : LedgerPnLTracker) (e : LedgerEntry) : LedgerPnLTracker :=
  if strLower e.etype ∈ ["realized_pnl", "pnl", "profit_and_loss", "settlement"] then
    { s with realized := s.realized + e.amount }
  else if strLower e.etype = "funding_fee" then
    { s with funding_paid := s.funding_paid + e.amount }
  else if strLower e.etype ∈ ["trade_fee", "fee"] then
    { s with fees_paid := s.fees_paid + |e.amount| }
  else s

/-- `LedgerPnLTracker.ingest_ledger_entry`: skip if the id was already
seen, otherwise mark it seen and classify. -/
def ingest_ledger_entry (s : LedgerPnLTracker) (e : LedgerEntry) : LedgerPnLTracker :=
  if e.id ∈ s.seen_ids then s
  else applyEntryType { s with seen_ids := insert e.id s.seen_ids } e

/-- `LedgerPnLTracker.ingest_ledger_batch`: ingest entries in list order. -/
def ingest_ledger_batch (s : LedgerPnLTracker) (ledger : List LedgerEntry) : LedgerPnLTracker :=
  ledger.foldl ingest_ledger_entry s

/-! ### Basic lemmas about the tracker -/

theorem applyEntryType_seen_ids (s : LedgerPnLTracker) (e : LedgerEntry) :
    (applyEntryType s e).seen_ids = s.seen_ids := by
  unfold applyEntryType
  split_ifs <;> rfl

theorem ingest_of_mem {s : LedgerPnLTracker} {e : LedgerEntry}
    (h : e.id ∈ s.seen_ids) : ingest_ledger_entry s e = s := by
  unfold ingest_ledger_entry
  exact if_pos h

theorem mem_ingest_self (s : LedgerPnLTracker) (e : LedgerEntry) :
    e.id ∈ (ingest_ledger_entry s e).seen_ids := by
  unfold ingest_ledger_entry
  split_ifs with h
  · exact h
  · rw [applyEntryType_seen_ids]
    exact Finset.mem_insert_self _ _

theorem seen_subset_ingest (s : LedgerPnLTracker) (e : LedgerEntry) :
    s.seen_ids ⊆ (ingest_ledger_entry s e).seen_ids := by
  unfold ingest_ledger_entry
  split_ifs with h
  · exact Finset.Subset.refl _
  · rw [applyEntryType_seen_ids]
    exact Finset.subset_insert _ _

theorem seen_subset_ingest_batch (s : LedgerPnLTracker) (l : List LedgerEntry) :
    s.seen_ids ⊆ (ingest_ledger_batch s l).seen_ids := by
  induction l generalizing s with
  | nil => exact Finset.Subset.refl _
  | cons e t ih =>
      exact Finset.Subset.trans (seen_subset_ingest s e) (ih (ingest_ledger_entry s e))

theorem mem_ingest_batch (s : LedgerPnLTracker) (l : List LedgerEntry) :
    ∀ e ∈ l, e.id ∈ (ingest_ledger_batch s l).seen_ids := by
  induction l generalizing s with
  | nil => intro e he; cases he
  | cons a t ih =>
      intro e he
      rcases List.mem_cons.mp he with h | h
      · subst h
        exact seen_subset_ingest_batch (ingest_ledger_entry s e) t
          (mem_ingest_self s e)
      · exact ih (ingest_ledger_entry s a) e h

theorem ingest_batch_of_all_mem {s : LedgerPnLTracker} {l : List LedgerEntry}
    (h : ∀ e ∈ l, e.id ∈ s.seen_ids) : ingest_ledger_batch s l = s := by
  induction l generalizing s with
  | nil => rfl
  | cons a t ih =>
      show ingest_ledger_batch (ingest_ledger_entry s a) t = s
      rw [ingest_of_mem (h a (List.mem_cons_self a t))]
      exact ih fun e he => h e (List.mem_cons_of_mem a he)

/-- The per-category contribution of an entry: (realized, funding_paid,
fees_paid) deltas, matching the dispatch in `applyEntryType`. -/
def entryDelta (e : LedgerEntry) : ℚ × ℚ × ℚ :=
  if strLower e.etype ∈ ["realized_pnl", "pnl", "profit_and_loss", "settlement"] then
    (e.amount, 0, 0)
  else if strLower e.etype = "funding_fee" then (0, e.amount, 0)
  else if strLower e.etype ∈ ["trade_fee", "fee"] then (0, 0, |e.amount|)
  else (0, 0, 0)

theorem applyEntryType_eq (s : LedgerPnLTracker) (e : LedgerEntry) :
    applyEntryType s e =
      ⟨s.seen_ids, s.realized + (entryDelta e).1,
        s.funding_paid + (entryDelta e).2.1, s.fees_paid + (entryDelta e).2.2⟩ := by
  unfold applyEntryType entryDelta
  split_ifs <;> simp

theorem entryDelta_fees_nonneg (e : LedgerEntry) : 0 ≤ (entryDelta e).2.2 := by
  unfold entryDelta
  split_ifs <;> simp [abs_nonneg]

theorem ingest_of_not_mem {s : LedgerPnLTracker} {e : LedgerEntry}
    (h : e.id ∉ s.seen_ids) :
    ingest_ledger_entry s e =
      applyEntryType { s with seen_ids := insert e.id s.seen_ids } e := by
  unfold ingest_ledger_entry
  exact if_neg h

theorem ingest_comm {a b : LedgerEntry} (hab : a.id ≠ b.id) (s : LedgerPnLTracker) :
    ingest_ledger_entry (ingest_ledger_entry s a) b =
      ingest_ledger_entry (ingest_ledger_entry s b) a := by
  by_cases ha : a.id ∈ s.seen_ids <;> by_cases hb : b.id ∈ s.seen_ids
  · rw [ingest_of_mem ha, ingest_of_mem hb, ingest_of_mem ha]
  · rw [ingest_of_mem ha, ingest_of_mem (seen_subset_ingest s b ha)]
  · rw [ingest_of_mem (seen_subset_ingest s a hb), ingest_of_mem hb]
  · have hb' : b.id ∉ (ingest_ledger_entry s a).seen_ids := by
      rw [ingest_of_not_mem ha, applyEntryType_seen_ids]
      simp only [Finset.mem_insert]
      exact fun h => h.elim (fun h1 => hab h1.symm) hb
    have ha' : a.id ∉ (ingest_ledger_entry s b).seen_ids := by
      rw [ingest_of_not_mem hb, applyEntryType_seen_ids]
      simp only [Finset.mem_insert]
      exact fun h => h.elim hab ha
    rw [ingest_of_not_mem hb', ingest_of_not_mem ha',
      ingest_of_not_mem ha, ingest_of_not_mem hb]
    simp only [applyEntryType_eq]
    exact LedgerPnLTracker.ext (by simp [Finset.Insert.comm])
      (by ring) (by ring) (by ring)

/-- Claim C3: ingesting the same batch of ledger entries twice yields
exactly the same tracker state (hence the same realized, funding_paid and
fees_paid totals) as ingesting it once: dedup by id makes batch ingestion
idempotent. -/
theorem ingest_batch_idem (s : LedgerPnLTracker) (l : List LedgerEntry) :
    ingest_ledger_batch (ingest_ledger_batch s l) l = ingest_ledger_batch s l :=
  ingest_batch_of_all_mem fun e he => mem_ingest_batch s l e he

/-- Claim C5, counterexample: from the reachable state obtained by
ingesting a settlement entry of amount 5, ingesting a settlement entry of
amount -3 strictly decreases the magnitude of the realized total (5 to 2),
so the cumulative totals are not monotonically non-decreasing in
magnitude. -/
theorem realized_magnitude_decreases :
    |(ingest_ledger_entry
        (ingest_ledger_entry LedgerPnLTracker.init ⟨1, "settlement", 5⟩)
        ⟨2, "settlement", -3⟩).realized| <
      |(ingest_ledger_entry LedgerPnLTracker.init ⟨1, "settlement", 5⟩).realized| := by
  with_unfolding_all decide

/-- Claim C5, amended: for every accumulator state and ledger entry,
`fees_paid` (accumulated as an absolute value) never decreases under
`ingest_ledger_entry`, and the seen-id set only grows; the signed sums
`realized` and `funding_paid` can decrease in magnitude when an entry of
the opposite sign arrives. -/
theorem fees_paid_mono (s : LedgerPnLTracker) (e : LedgerEntry) :
    s.fees_paid ≤ (ingest_ledger_entry s e).fees_paid ∧
      s.seen_ids ⊆ (ingest_ledger_entry s e).seen_ids := by
  refine ⟨?_, seen_subset_ingest s e⟩
  unfold ingest_ledger_entry
  split_ifs with h
  · exact le_refl _
  · rw [applyEntryType_eq]
    simpa using entryDelta_fees_nonneg e

/-- Claim C6, counterexample: a batch containing two different entries
with the same id is order-sensitive: only the first one is counted, so the
two orders of the batch give different fees_paid totals. -/
theorem ingest_batch_not_perm_invariant :
    ([⟨1, "fee", 5⟩, ⟨1, "fee", 7⟩] : List LedgerEntry).Perm
        [⟨1, "fee", 7⟩, ⟨1, "fee", 5⟩] ∧
      ingest_ledger_batch LedgerPnLTracker.init [⟨1, "fee", 5⟩, ⟨1, "fee", 7⟩] ≠
        ingest_ledger_batch LedgerPnLTracker.init [⟨1, "fee", 7⟩, ⟨1, "fee", 5⟩] := by
  constructor
  · exact List.Perm.swap _ _ _
  · with_unfolding_all decide

/-- Claim C6, amended: for batches whose entries carry pairwise distinct
ids, `ingest_ledger_batch` is invariant under permutation of the batch:
ingestion order does not affect the resulting tracker state. -/
theorem ingest_batch_perm_invariant (s : LedgerPnLTracker)
    {l₁ l₂ : List LedgerEntry} (hp : l₁.Perm l₂)
    (hnd : (l₁.map LedgerEntry.id).Nodup) :
    ingest_ledger_batch s l₁ = ingest_ledger_batch s l₂ := by
  unfold ingest_ledger_batch
  refine hp.foldl_eq' ?_ s
  intro x hx y hy z
  by_cases hxy : x.id = y.id
  · have hxyeq : x = y := List.inj_on_of_nodup_map hnd hx hy hxy
    subst hxyeq; rfl
  · exact ingest_comm hxy z

/-- Witness for `ingest_batch_perm_invariant` at a concrete two-entry
batch with distinct ids. -/
theorem ingest_batch_perm_invariant_witness :
    ingest_ledger_batch LedgerPnLTracker.init [⟨1, "fee", 5⟩, ⟨2, "settlement", 3⟩] =
      ingest_ledger_batch LedgerPnLTracker.init [⟨2, "settlement", 3⟩, ⟨1, "fee", 5⟩] :=
  ingest_batch_perm_invariant LedgerPnLTracker.init
    (List.Perm.swap _ _ _) (by with_unfolding_all decide)

/-- Claim C9: an entry with an unrecognized (lower-cased) type leaves all
three totals unchanged, but its id still enters the seen set, so any later
entry with the same id — recognized type or not — is a complete no-op. -/
theorem unrecognized_type_marks_seen (s : LedgerPnLTracker) (e : LedgerEntry)
    (h1 : strLower e.etype ∉ ["realized_pnl", "pnl", "profit_and_loss", "settlement"])
    (h2 : strLower e.etype ≠ "funding_fee")
    (h3 : strLower e.etype ∉ ["trade_fee", "fee"]) :
    (ingest_ledger_entry s e).realized = s.realized ∧
      (ingest_ledger_entry s e).funding_paid = s.funding_paid ∧
      (ingest_ledger_entry s e).fees_paid = s.fees_paid ∧
      e.id ∈ (ingest_ledger_entry s e).seen_ids ∧
      ∀ e' : LedgerEntry, e'.id = e.id →
        ingest_ledger_entry (ingest_ledger_entry s e) e' = ingest_ledger_entry s e := by
  have happ : ∀ t : LedgerPnLTracker, applyEntryType t e = t := by
    intro t
    unfold applyEntryType
    rw [if_neg h1, if_neg h2, if_neg h3]
  have hstate : ∀ x : LedgerPnLTracker, (ingest_ledger_entry x e).realized = x.realized ∧
      (ingest_ledger_entry x e).funding_paid = x.funding_paid ∧
      (ingest_ledger_entry x e).fees_paid = x.fees_paid := by
    intro x
    unfold ingest_ledger_entry
    split_ifs with h
    · exact ⟨rfl, rfl, rfl⟩
    · rw [happ]; exact ⟨rfl, rfl, rfl⟩
  refine ⟨(hstate s).1, (hstate s).2.1, (hstate s).2.2, mem_ingest_self s e, ?_⟩
  intro e' he'
  exact ingest_of_mem (he' ▸ mem_ingest_self s e)

/-- Witness for `unrecognized_type_marks_seen` at a concrete "transfer"
entry followed by a "fee" entry reusing the same id. -/
theorem unrecognized_type_marks_seen_witness :
    (ingest_ledger_entry LedgerPnLTracker.init ⟨7, "transfer", 42⟩).realized =
        LedgerPnLTracker.init.realized ∧
      (ingest_ledger_entry LedgerPnLTracker.init ⟨7, "transfer", 42⟩).funding_paid =
        LedgerPnLTracker.init.funding_paid ∧
      (ingest_ledger_entry LedgerPnLTracker.init ⟨7, "transfer", 42⟩).fees_paid =
        LedgerPnLTracker.init.fees_paid ∧
      (7 : Nat) ∈ (ingest_ledger_entry LedgerPnLTracker.init ⟨7, "transfer", 42⟩).seen_ids ∧
      ingest_ledger_entry (ingest_ledger_entry LedgerPnLTracker.init ⟨7, "transfer", 42⟩)
          ⟨7, "fee", -5⟩ =
        ingest_ledger_entry LedgerPnLTracker.init ⟨7, "transfer", 42⟩ := by
  have h := unrecognized_type_marks_seen LedgerPnLTracker.init ⟨7, "transfer", 42⟩
    (by with_unfolding_all decide) (by with_unfolding_all decide)
    (by with_unfolding_all decide)
  exact ⟨h.1, h.2.1, h.2.2.1, h.2.2.2.1, h.2.2.2.2 ⟨7, "fee", -5⟩ rfl⟩

/-! ### Indicators, configuration and the per-tick decision -/

/-- One OHLCV candle `(timestamp, open, high, low, close, volume)`. -/
structure Candle where
  ts : ℚ
  op : ℚ
  high : ℚ
  low : ℚ
  close : ℚ
  volume : ℚ
deriving DecidableEq

/-- `calculate_atr(ohlcvs, length)`: `None` on fewer than `length + 1`
candles, else the arithmetic mean of the true ranges of the most recent
`length` candles.  `ohlcvs[-i]` is position `i - 1` of the reversed list
and `ohlcvs[-i-1]` is position `i`. -/
def calculate_atr (ohlcvs : List Candle) (length : Nat) : Option ℚ :=
  if ohlcvs.length < length + 1 then none
  else
    let r := ohlcvs.reverse
    let trs := (List.range length).map fun j =>
      let c := r.getD j ⟨0, 0, 0, 0, 0, 0⟩
      let cp := r.getD (j + 1) ⟨0, 0, 0, 0, 0, 0⟩
      max (c.high - c.low) (max |c.high - cp.close| |c.low - cp.close|)
    some (trs.sum / (length : ℚ))

/-- `calculate_ema(values, length)`: `None` on fewer than `length` values,
else seed with the simple mean of the first `length` values and run the
recurrence `ema ← price·k + ema·(1−k)` with `k = 2/(length+1)` over the
remaining values. -/
def calculate_ema (values : List ℚ) (length : Nat) : Option ℚ :=
  if values.length < length then none
  else
    let k : ℚ := 2 / ((length : ℚ) + 1)
    let seed := (values.take length).sum / (length : ℚ)
    some ((values.drop length).foldl (fun ema price => price * k + ema * (1 - k)) seed)

/-- A position snapshot as used on line 224: unsigned magnitude `qty`,
free-text `side`, `entry_price`. -/
structure Position where
  qty : ℚ
  side : String
  entry_price : ℚ
deriving DecidableEq

/-- Signed position quantity: `+qty` for side "long", `-qty` for side
"short" (case-insensitive), else 0. -/
def signed_qty (p : Position) : ℚ :=
  if strLower p.side = "long" then p.qty
  else if strLower p.side = "short" then -p.qty
  else 0

/-- The static configuration constants of the bot. -/
structure Config where
  target_notional : ℚ
  leverage : ℚ
  base_tol_pct : ℚ
  atr_len : Nat
  vol_ref_atr_pct : ℚ
  vol_scale_min : ℚ
  vol_scale_max : ℚ
  ema_short_len : Nat
  ema_long_len : Nat
  trend_strength_mult : ℚ
  qty_step : ℚ
  min_trade_value : ℚ
  allow_short : Bool
deriving DecidableEq

/-- The constants configured at the top of the source file. -/
def defaultConfig : Config :=
  { target_notional := 3000
    leverage := 3
    base_tol_pct := 1
    atr_len := 14
    vol_ref_atr_pct := 1
    vol_scale_min := 1/2
    vol_scale_max := 3
    ema_short_len := 10
    ema_long_len := 50
    trend_strength_mult := 1
    qty_step := 1/10000
    min_trade_value := 10
    allow_short := false }

/-- `round_qty(qty)`: floor-quantization to the configured step. -/
def round_qty (cfg : Config) (qty : ℚ) : ℚ :=
  ⌊qty / cfg.qty_step⌋ * cfg.qty_step

/-- Volatility scale (lines 204-205): `atr_pct / vol_ref`, clamped into
`[vol_scale_min, vol_scale_max]`. -/
def volScale (cfg : Config) (atr_pct : ℚ) : ℚ :=
  max cfg.vol_scale_min (min cfg.vol_scale_max (atr_pct / cfg.vol_ref_atr_pct))

/-- Effective tolerance in notional terms (line 221). -/
def effective_tol_value (cfg : Config) (atr_pct : ℚ) : ℚ :=
  cfg.target_notional * (cfg.base_tol_pct / 100) * volScale cfg atr_pct

/-- The sizing outcome of one tick: the final values of
`should_rebalance`, `final_side`, `final_qty`, `reduce_only`. -/
structure Decision where
  should_rebalance : Bool
  final_side : String
  final_qty : ℚ
  reduce_only : Bool
deriving DecidableEq

/-- The trend-damping factor `1 / (1 + min(trend_strength, 100) / 10)`
(lines 237 and 239). -/
def dampFactor (trend_strength : ℚ) : ℚ :=
  1 / (1 + min trend_strength 100 / 10)

/-- Clamp of a damping scale into `[0.1, 1.0]` (lines 240-241). -/
def clampScale (x : ℚ) : ℚ :=
  max (1/10) (min 1 x)

/-- Lines 243-279: the gate `should_rebalance` and the side/quantity
resolution, given the signed deviation, the clipped rounded quantity and
the two (already clamped) damping scales. -/
def rawDecision (cfg : Config) (price tol deviation rounded_qty sell_scale
    buy_scale pos_qty : ℚ) : Decision :=
  if |deviation| > tol ∧ rounded_qty * price ≥ cfg.min_trade_value then
    if 0 < deviation then
      if 0 < pos_qty then
        if 0 < (if cfg.allow_short then rounded_qty * sell_scale
                else min (rounded_qty * sell_scale) |pos_qty|) then
          ⟨true, "sell",
            (if cfg.allow_short then rounded_qty * sell_scale
             else min (rounded_qty * sell_scale) |pos_qty|), true⟩
        else ⟨false, "", 0, false⟩
      else if pos_qty < 0 then
        if 0 < (if cfg.allow_short then rounded_qty * buy_scale
                else min (rounded_qty * buy_scale) |pos_qty|) then
          ⟨true, "buy",
            (if cfg.allow_short then rounded_qty * buy_scale
             else min (rounded_qty * buy_scale) |pos_qty|), true⟩
        else ⟨false, "", 0, false⟩
      else ⟨false, "", 0, false⟩
    else
      if 0 < rounded_qty * buy_scale then
        ⟨true, "buy", rounded_qty * buy_scale, false⟩
      else ⟨false, "", 0, false⟩
  else ⟨false, "", 0, false⟩

/-- Lines 281-283: demote to no-action when the final notional falls
below the minimum trade value (quantity and side are kept as-is). -/
def demoteSmall (cfg : Config) (price : ℚ) (d : Decision) : Decision :=
  if d.final_qty * price < cfg.min_trade_value then
    { d with should_rebalance := false }
  else d

/-- Lines 203-283 of `compute_and_maybe_rebalance`: tolerance banding,
deviation sizing, trend damping, side resolution, and the final
minimum-notional demotion. -/
def tickDecision (cfg : Config) (price atr ema_short ema_long pos_qty : ℚ) : Decision :=
  let atr_pct := atr / price * 100
  let trend_strength := |ema_short - ema_long| / ema_long * 100 * cfg.trend_strength_mult
  let deviation := |pos_qty| * price - cfg.target_notional
  let rounded_qty := max 0 (round_qty cfg (|deviation| / price))
  let sell_scale := clampScale (if ema_long < ema_short then dampFactor trend_strength else 1)
  let buy_scale := clampScale (if ema_short < ema_long then dampFactor trend_strength else 1)
  demoteSmall cfg price
    (rawDecision cfg price (effective_tol_value cfg atr_pct) deviation
      rounded_qty sell_scale buy_scale pos_qty)

/-- The instruction handed to the order-placement code. -/
structure TradeInstruction where
  side : String
  qty : ℚ
  reduce_only : Bool
deriving DecidableEq

/-- The per-cycle CSV log row (minus the wall-clock timestamp). -/
structure LogRow where
  action_note : String
  side : String
  qty : ℚ
  price : ℚ
  realized : ℚ
  funding_paid : ℚ
  fees_paid : ℚ
  pos_qty : ℚ
  pos_notional : ℚ
  equity : ℚ
deriving DecidableEq

/-- The observable outcome of one call to `compute_and_maybe_rebalance`:
the tracker state afterwards, the emitted instruction (if any) and the
appended log row (if any). -/
structure TickResult where
  tracker : LedgerPnLTracker
  instruction : Option TradeInstruction
  log : Option LogRow
deriving DecidableEq

/-- `compute_and_maybe_rebalance`, with the per-tick exchange reads passed
in as inputs: candles, last price (absent on failure), position snapshot,
available margin balance, and the fetched ledger page.  Missing price,
insufficient ATR data or insufficient EMA data abort the tick before any
mutation; otherwise the decision is sized, the ledger page is ingested,
and a log row is produced. -/
def compute_and_maybe_rebalance (cfg : Config) (s : LedgerPnLTracker)
    (ohlcvs : List Candle) (priceOpt : Option ℚ) (pos : Position)
    (margin_balance : ℚ) (ledger : List LedgerEntry) : TickResult :=
  match priceOpt with
  | none => ⟨s, none, none⟩
  | some price =>
    match calculate_atr ohlcvs cfg.atr_len with
    | none => ⟨s, none, none⟩
    | some atr =>
      match calculate_ema (ohlcvs.map Candle.close) cfg.ema_short_len,
            calculate_ema (ohlcvs.map Candle.close) cfg.ema_long_len with
      | some ema_short, some ema_long =>
        let pos_qty := signed_qty pos
        let d := tickDecision cfg price atr ema_short ema_long pos_qty
        let sIn := ingest_ledger_batch s ledger
        let emit := d.should_rebalance && decide (0 < d.final_qty)
        { tracker := sIn
          instruction :=
            if emit then some ⟨d.final_side, d.final_qty, d.reduce_only⟩ else none
          log := some
            { action_note := if emit then "dry_run" else "no_action"
              side := if d.final_side = "" then "none" else d.final_side
              qty := d.final_qty
              price := price
              realized := sIn.realized
              funding_paid := sIn.funding_paid
              fees_paid := sIn.fees_paid
              pos_qty := pos_qty
              pos_notional := |pos_qty| * price
              equity := margin_balance * cfg.leverage } }
      | _, _ => ⟨s, none, none⟩

/-! ### EMA on constant series (C8) -/

theorem emaFold_const (k c : ℚ) (m : Nat) :
    (List.replicate m c).foldl (fun ema price => price * k + ema * (1 - k)) c = c := by
  induction m with
  | zero => rfl
  | succ m ih =>
      rw [List.replicate_succ, List.foldl_cons,
        show c * k + c * (1 - k) = c from by ring]
      exact ih

/-- Claim C8: on any constant price series whose length is at least the
(positive) EMA length, `calculate_ema` returns exactly that constant. -/
theorem calculate_ema_const {values : List ℚ} {c : ℚ} (length : Nat)
    (hpos : 0 < length) (hlen : length ≤ values.length)
    (hconst : ∀ x ∈ values, x = c) :
    calculate_ema values length = some c := by
  have hrep : values = List.replicate values.length c :=
    List.eq_replicate_of_mem hconst
  rw [hrep]
  unfold calculate_ema
  rw [if_neg (by simpa using hlen)]
  have htake : (List.replicate values.length c).take length = List.replicate length c := by
    rw [List.take_replicate, Nat.min_eq_left hlen]
  have hdrop : (List.replicate values.length c).drop length =
      List.replicate (values.length - length) c := by
    rw [List.drop_replicate]
  rw [htake, hdrop, List.sum_replicate, nsmul_eq_mul,
    mul_div_cancel_left₀ _ (Nat.cast_ne_zero.mpr hpos.ne' : (length : ℚ) ≠ 0)]
  exact congrArg some (emaFold_const (2 / ((length : ℚ) + 1)) c (values.length - length))

/-- Witness for `calculate_ema_const`: three constant closes, length 2. -/
theorem calculate_ema_const_witness :
    calculate_ema [5, 5, 5] 2 = some 5 :=
  calculate_ema_const 2 (by decide) (by decide) (by decide)

/-! ### Effective tolerance monotone in atr_pct (C7) -/

/-- Claim C7: with nonnegative target and base tolerance and a positive
volatility reference (as in the shipped configuration), the effective
tolerance `target_notional × base_tol_pct/100 × clamped vol scale` is
monotonically non-decreasing in `atr_pct`: higher volatility never makes
the rebalance gate easier to trigger. -/
theorem effective_tol_mono (cfg : Config) (h1 : 0 ≤ cfg.target_notional)
    (h2 : 0 ≤ cfg.base_tol_pct) (h3 : 0 < cfg.vol_ref_atr_pct)
    {a b : ℚ} (hab : a ≤ b) :
    effective_tol_value cfg a ≤ effective_tol_value cfg b := by
  unfold effective_tol_value volScale
  refine mul_le_mul_of_nonneg_left ?_ (mul_nonneg h1 (div_nonneg h2 (by norm_num)))
  exact max_le_max (le_refl _)
    (min_le_min (le_refl _) ((div_le_div_iff_of_pos_right h3).mpr hab))

/-- Witness for `effective_tol_mono` at the shipped configuration. -/
theorem effective_tol_mono_witness :
    effective_tol_value defaultConfig 0 ≤ effective_tol_value defaultConfig 1 :=
  effective_tol_mono defaultConfig (by with_unfolding_all decide)
    (by with_unfolding_all decide) (by with_unfolding_all decide)
    (by with_unfolding_all decide)

/-! ### Structure of the decision -/

theorem demoteSmall_final_side (cfg : Config) (price : ℚ) (d : Decision) :
    (demoteSmall cfg price d).final_side = d.final_side := by
  unfold demoteSmall
  split_ifs <;> rfl

theorem demoteSmall_final_qty (cfg : Config) (price : ℚ) (d : Decision) :
    (demoteSmall cfg price d).final_qty = d.final_qty := by
  unfold demoteSmall
  split_ifs <;> rfl

theorem demoteSmall_reduce_only (cfg : Config) (price : ℚ) (d : Decision) :
    (demoteSmall cfg price d).reduce_only = d.reduce_only := by
  unfold demoteSmall
  split_ifs <;> rfl

theorem clampScale_le_one (x : ℚ) : clampScale x ≤ 1 :=
  max_le (by norm_num) (min_le_left _ _)

/-- If `rawDecision` resolves to a sell and shorting is disallowed, the
quantity was capped by `min` at the position magnitude and the instruction
is reduce-only. -/
theorem rawDecision_sell_le (cfg : Config)
    (price tol deviation rounded_qty sell_scale buy_scale pq : ℚ)
    (hshort : cfg.allow_short = false)
    (hside : (rawDecision cfg price tol deviation rounded_qty sell_scale
        buy_scale pq).final_side = "sell") :
    (rawDecision cfg price tol deviation rounded_qty sell_scale
        buy_scale pq).final_qty ≤ |pq| ∧
      (rawDecision cfg price tol deviation rounded_qty sell_scale
        buy_scale pq).reduce_only = true := by
  unfold rawDecision at hside ⊢
  simp only [hshort, Bool.false_eq_true, if_false] at hside ⊢
  split_ifs at hside ⊢ <;>
    first
      | exact ⟨min_le_right _ _, rfl⟩
      | exact absurd hside (by show ¬("" = "sell"); decide)
      | exact absurd hside (by show ¬("buy" = "sell"); decide)

/-- The quantity resolved by `rawDecision` never exceeds the rounded
quantity it was given, provided the damping scales are at most 1. -/
theorem rawDecision_qty_le (cfg : Config)
    (price tol deviation rounded_qty sell_scale buy_scale pq : ℚ)
    (hss : sell_scale ≤ 1) (hbs : buy_scale ≤ 1) (hrq : 0 ≤ rounded_qty) :
    (rawDecision cfg price tol deviation rounded_qty sell_scale
        buy_scale pq).final_qty ≤ rounded_qty := by
  unfold rawDecision
  split_ifs <;>
    first
      | exact hrq
      | exact mul_le_of_le_one_right hrq hss
      | exact mul_le_of_le_one_right hrq hbs
      | exact le_trans (min_le_left _ _) (mul_le_of_le_one_right hrq hss)
      | exact le_trans (min_le_left _ _) (mul_le_of_le_one_right hrq hbs)

/-- If `tickDecision` resolves to a sell and shorting is disallowed, the
quantity is at most the position magnitude and the instruction is
reduce-only. -/
theorem tickDecision_sell_le (cfg : Config) (price atr es el pq : ℚ)
    (hshort : cfg.allow_short = false)
    (hside : (tickDecision cfg price atr es el pq).final_side = "sell") :
    (tickDecision cfg price atr es el pq).final_qty ≤ |pq| ∧
      (tickDecision cfg price atr es el pq).reduce_only = true := by
  simp only [tickDecision] at hside ⊢
  rw [demoteSmall_final_side] at hside
  rw [demoteSmall_final_qty, demoteSmall_reduce_only]
  exact rawDecision_sell_le _ _ _ _ _ _ _ _ hshort hside

/-- The final quantity of a tick decision never exceeds the clipped
floor-quantized deviation quantity. -/
theorem tickDecision_qty_le (cfg : Config) (price atr es el pq : ℚ) :
    (tickDecision cfg price atr es el pq).final_qty ≤
      max 0 (round_qty cfg (|(|pq| * price - cfg.target_notional)| / price)) := by
  simp only [tickDecision]
  rw [demoteSmall_final_qty]
  exact rawDecision_qty_le _ _ _ _ _ _ _ _
    (clampScale_le_one _) (clampScale_le_one _) (le_max_left _ _)

/-- Any emitted instruction comes from the sizing decision of a tick on
which price, ATR and both EMAs were available. -/
theorem instruction_some_elim {cfg : Config} {s : LedgerPnLTracker}
    {ohlcvs : List Candle} {price : ℚ} {pos : Position} {mb : ℚ}
    {ledger : List LedgerEntry} {i : TradeInstruction}
    (hi : (compute_and_maybe_rebalance cfg s ohlcvs (some price) pos mb
        ledger).instruction = some i) :
    ∃ atr es el,
      calculate_atr ohlcvs cfg.atr_len = some atr ∧
        calculate_ema (ohlcvs.map Candle.close) cfg.ema_short_len = some es ∧
        calculate_ema (ohlcvs.map Candle.close) cfg.ema_long_len = some el ∧
        i = ⟨(tickDecision cfg price atr es el (signed_qty pos)).final_side,
          (tickDecision cfg price atr es el (signed_qty pos)).final_qty,
          (tickDecision cfg price atr es el (signed_qty pos)).reduce_only⟩ := by
  unfold compute_and_maybe_rebalance at hi
  cases hA : calculate_atr ohlcvs cfg.atr_len with
  | none => rw [hA] at hi; simp at hi
  | some atr =>
    rw [hA] at hi
    cases hS : calculate_ema (ohlcvs.map Candle.close) cfg.ema_short_len with
    | none => rw [hS] at hi; simp at hi
    | some es =>
      rw [hS] at hi
      cases hL : calculate_ema (ohlcvs.map Candle.close) cfg.ema_long_len with
      | none => rw [hL] at hi; simp at hi
      | some el =>
        rw [hL] at hi
        refine ⟨atr, es, el, rfl, rfl, rfl, ?_⟩
        simp only at hi
        split_ifs at hi with hemit
        exact (Option.some_inj.mp hi).symm

/-- Claim C1: on a tick where the position is net long with magnitude `Q`,
the deviation is positive and shorting is disallowed, any sell instruction
emitted by `compute_and_maybe_rebalance` has quantity at most `Q` and is
reduce-only. -/
theorem sell_capped_at_long_magnitude (cfg : Config) (s : LedgerPnLTracker)
    (ohlcvs : List Candle) (price : ℚ) (pos : Position) (mb : ℚ)
    (ledger : List LedgerEntry) (Q : ℚ) (i : TradeInstruction)
    (hshort : cfg.allow_short = false)
    (hQ : signed_qty pos = Q) (hQpos : 0 < Q)
    (_hdev : cfg.target_notional < |Q| * price)
    (hi : (compute_and_maybe_rebalance cfg s ohlcvs (some price) pos mb
        ledger).instruction = some i)
    (hside : i.side = "sell") :
    i.qty ≤ Q ∧ i.reduce_only = true := by
  obtain ⟨atr, es, el, _, _, _, hieq⟩ := instruction_some_elim hi
  subst hieq
  rw [hQ] at hside ⊢
  have h := tickDecision_sell_le cfg price atr es el Q hshort hside
  exact ⟨h.1.trans_eq (abs_of_pos hQpos), h.2⟩

/-- A small configuration (short EMA windows) used to exercise the sell
path on concrete inputs. -/
def witnessCfg : Config :=
  { target_notional := 100
    leverage := 1
    base_tol_pct := 1
    atr_len := 1
    vol_ref_atr_pct := 1
    vol_scale_min := 1/2
    vol_scale_max := 3
    ema_short_len := 1
    ema_long_len := 2
    trend_strength_mult := 1
    qty_step := 1/10
    min_trade_value := 1
    allow_short := false }

/-- A flat candle at price 10. -/
def flatCandle : Candle := ⟨0, 10, 10, 10, 10, 0⟩

/-- Witness for `sell_capped_at_long_magnitude`: a long position of 20 at
price 10 versus target 100 triggers a sell of 10 ≤ 20, reduce-only. -/
theorem sell_capped_at_long_magnitude_witness :
    ((compute_and_maybe_rebalance witnessCfg LedgerPnLTracker.init
        [flatCandle, flatCandle] (some 10) ⟨20, "long", 0⟩ 0 []).instruction =
      some ⟨"sell", 10, true⟩) ∧ ((10 : ℚ) ≤ 20 ∧ true = true) := by
  have hi : (compute_and_maybe_rebalance witnessCfg LedgerPnLTracker.init
      [flatCandle, flatCandle] (some 10) ⟨20, "long", 0⟩ 0 []).instruction =
      some ⟨"sell", 10, true⟩ := by with_unfolding_all rfl
  exact ⟨hi, sell_capped_at_long_magnitude witnessCfg LedgerPnLTracker.init
    [flatCandle, flatCandle] 10 ⟨20, "long", 0⟩ 0 [] 20 ⟨"sell", 10, true⟩ rfl
    (by with_unfolding_all decide) (by with_unfolding_all decide)
    (by with_unfolding_all decide) hi rfl⟩

/-- Claim C10: any emitted instruction's quantity is bounded by the
floor-quantized deviation quantity `round_qty(|deviation| / price)`:
damping (clamped into [0.1, 1]) and position capping only shrink it. -/
theorem emitted_qty_le_rounded (cfg : Config) (s : LedgerPnLTracker)
    (ohlcvs : List Candle) (price : ℚ) (pos : Position) (mb : ℚ)
    (ledger : List LedgerEntry) (i : TradeInstruction)
    (hstep : 0 < cfg.qty_step) (hprice : 0 < price)
    (hi : (compute_and_maybe_rebalance cfg s ohlcvs (some price) pos mb
        ledger).instruction = some i) :
    i.qty ≤ round_qty cfg (|(|signed_qty pos| * price - cfg.target_notional)| / price) := by
  obtain ⟨atr, es, el, _, _, _, hieq⟩ := instruction_some_elim hi
  subst hieq
  have h := tickDecision_qty_le cfg price atr es el (signed_qty pos)
  have hnn : 0 ≤ round_qty cfg
      (|(|signed_qty pos| * price - cfg.target_notional)| / price) := by
    unfold round_qty
    have hq : (0 : ℚ) ≤ |(|signed_qty pos| * price - cfg.target_notional)| / price :=
      div_nonneg (abs_nonneg _) hprice.le
    have hfl := Int.floor_nonneg.mpr (div_nonneg hq hstep.le)
    exact mul_nonneg (by exact_mod_cast hfl) hstep.le
  rw [max_eq_right hnn] at h
  exact h

/-- Witness for `emitted_qty_le_rounded`: a long position of 30 at price
10 versus target 100 emits a sell of exactly the rounded quantity 20. -/
theorem emitted_qty_le_rounded_witness :
    (0 : ℚ) < witnessCfg.qty_step ∧ (0 : ℚ) < 10 ∧
      ((compute_and_maybe_rebalance witnessCfg LedgerPnLTracker.init
          [flatCandle, flatCandle] (some 10) ⟨30, "long", 0⟩ 0 []).instruction =
        some ⟨"sell", 20, true⟩) ∧
      (20 : ℚ) ≤ round_qty witnessCfg
        (|(|signed_qty ⟨30, "long", 0⟩| * 10 - witnessCfg.target_notional)| / 10) := by
  have hi : (compute_and_maybe_rebalance witnessCfg LedgerPnLTracker.init
      [flatCandle, flatCandle] (some 10) ⟨30, "long", 0⟩ 0 []).instruction =
      some ⟨"sell", 20, true⟩ := by with_unfolding_all rfl
  exact ⟨by with_unfolding_all decide, by with_unfolding_all decide, hi,
    emitted_qty_le_rounded witnessCfg LedgerPnLTracker.init
      [flatCandle, flatCandle] 10 ⟨30, "long", 0⟩ 0 [] ⟨"sell", 20, true⟩
      (by with_unfolding_all decide) (by with_unfolding_all decide) hi⟩

/-! ### Quantization (C2) -/

/-- Claim C2, amended: the floor-quantized candidate quantity
`max(0, round_qty(q))` is always a non-negative integer multiple of the
configured step; the final instruction quantity is this candidate scaled
by a damping factor in [0.1, 1] and possibly capped at the position
magnitude, and so need not itself be a multiple of the step. -/
theorem rounded_qty_step_multiple (cfg : Config) (q : ℚ)
    (hstep : 0 < cfg.qty_step) :
    ∃ n : ℕ, max 0 (round_qty cfg q) = (n : ℚ) * cfg.qty_step := by
  unfold round_qty
  by_cases hz : 0 ≤ ⌊q / cfg.qty_step⌋
  · refine ⟨⌊q / cfg.qty_step⌋.toNat, ?_⟩
    rw [max_eq_right (mul_nonneg (by exact_mod_cast hz) hstep.le)]
    have hcast : ((⌊q / cfg.qty_step⌋.toNat : ℕ) : ℚ) = ((⌊q / cfg.qty_step⌋ : ℤ) : ℚ) := by
      exact_mod_cast congrArg (fun z : ℤ => (z : ℚ)) (Int.toNat_of_nonneg hz)
    rw [hcast]
  · refine ⟨0, ?_⟩
    push_neg at hz
    rw [Nat.cast_zero, zero_mul]
    exact max_eq_left
      (le_of_lt (mul_neg_of_neg_of_pos (by exact_mod_cast hz) hstep))

/-- Witness for `rounded_qty_step_multiple` at the shipped step 1/10000. -/
theorem rounded_qty_step_multiple_witness :
    (0 : ℚ) < defaultConfig.qty_step ∧
      ∃ n : ℕ, max 0 (round_qty defaultConfig (7/20000)) =
        (n : ℚ) * defaultConfig.qty_step :=
  ⟨by with_unfolding_all decide,
    rounded_qty_step_multiple defaultConfig (7/20000) (by with_unfolding_all decide)⟩

/-- Forty-nine flat candles at 10 followed by one flat candle at 1000: enough data
for ATR(14) and EMA(10)/EMA(50), with a strong uptrend (trend strength
above 100, so the sell damping clamps to exactly 1/10). -/
def cexCandles : List Candle :=
  List.replicate 49 ⟨0, 10, 10, 10, 10, 0⟩ ++ [⟨0, 1000, 1000, 1000, 1000, 0⟩]

set_option maxRecDepth 8000 in
set_option maxHeartbeats 1000000 in
/-- Claim C2, counterexample: on this tick the rounded quantity is 0.0101
(101 steps) but the emitted sell is damped by 1/10 to 0.00101, which is
not an integer multiple of the step 0.0001. -/
theorem emitted_qty_not_step_multiple :
    (compute_and_maybe_rebalance defaultConfig LedgerPnLTracker.init cexCandles
        (some 10000) ⟨3101/10000, "long", 0⟩ 0 []).instruction =
      some ⟨"sell", 101/100000, true⟩ ∧
    ¬ ∃ n : ℕ, (101/100000 : ℚ) = (n : ℚ) * defaultConfig.qty_step := by
  constructor
  · with_unfolding_all rfl
  · rintro ⟨n, hn⟩
    have hq : defaultConfig.qty_step = 1/10000 := rfl
    rw [hq] at hn
    have h2 : (101 : ℚ) = 10 * (n : ℚ) := by
      field_simp at hn
      linarith
    have h3 : (101 : ℤ) = 10 * (n : ℤ) := by exact_mod_cast h2
    omega

/-! ### Missing market data aborts the tick (C4) -/

/-- Claim C4: if the price is absent, or ATR or either EMA reports
insufficient data, the tick returns with the tracker untouched, no
instruction and no log row. -/
theorem missing_data_skips_tick (cfg : Config) (s : LedgerPnLTracker)
    (ohlcvs : List Candle) (priceOpt : Option ℚ) (pos : Position) (mb : ℚ)
    (ledger : List LedgerEntry)
    (h : priceOpt = none ∨ calculate_atr ohlcvs cfg.atr_len = none ∨
      calculate_ema (ohlcvs.map Candle.close) cfg.ema_short_len = none ∨
      calculate_ema (ohlcvs.map Candle.close) cfg.ema_long_len = none) :
    compute_and_maybe_rebalance cfg s ohlcvs priceOpt pos mb ledger =
      ⟨s, none, none⟩ := by
  cases priceOpt with
  | none => rfl
  | some price =>
    unfold compute_and_maybe_rebalance
    rcases h with h | h | h | h
    · exact absurd h (by simp)
    · rw [h]
    · cases hA : calculate_atr ohlcvs cfg.atr_len with
      | none => rfl
      | some atr => rw [h]
    · cases hA : calculate_atr ohlcvs cfg.atr_len with
      | none => rfl
      | some atr =>
          cases hS : calculate_ema (ohlcvs.map Candle.close) cfg.ema_short_len with
          | none => rfl
          | some es => rw [h]

/-- Witness for `missing_data_skips_tick`: with no candles, ATR reports
insufficient data, and a pending ledger page is left un-ingested. -/
theorem missing_data_skips_tick_witness :
    compute_and_maybe_rebalance defaultConfig LedgerPnLTracker.init []
        (some 1) ⟨0, "", 0⟩ 0 [⟨1, "fee", 2⟩] =
      ⟨LedgerPnLTracker.init, none, none⟩ :=
  missing_data_skips_tick defaultConfig LedgerPnLTracker.init [] (some 1)
    ⟨0, "", 0⟩ 0 [⟨1, "fee", 2⟩] (Or.inr (Or.inl rfl))

end BybitRebalance
